import Mathlib

/-!
Verification of the availability scraper's extraction and change-detection
core (`scraper.py`).  The pipeline is shallowly embedded:

* text lines are `List Char` (the markup-to-lines normalizer is an external
  collaborator per the design; `parse_availability_from_html` is modelled
  from the point where the list of trimmed, non-empty lines exists);
* the regular expressions `DATE_PATTERN` and `(\d+)\s+Available` are
  modelled by explicit leftmost-search functions over character lists,
  specialised to those two patterns (ASCII character classes, which is the
  fragment the page text exercises);
* Python `datetime.strptime(.., "%d %b %Y").date()` is modelled by
  `parseDate` (case-insensitive three-letter month abbreviation, calendar
  validity including leap years, year range 1..9999);
* the state file is modelled by `StateFileContent`, distinguishing the
  observable outcomes of `json.load` plus `data.get("availabilities", [])`
  under the surrounding `except Exception` handler;
* `check_overland` is parameterised by the fetched rows, the start date,
  the state-file contents and a flag telling whether the Telegram dispatch
  succeeds; it returns the final file contents, the ordered list of
  side-effect events (state writes, successful notifications), the branch
  taken, and whether the run aborted with a delivery error;
* pagination in `fetch_all_days` is modelled by `fetch_pages_loop`, fuelled
  with the 79 iterations of `range(1, 80)` and fed a stream of parsed pages.
-/

/-- Substring containment, modelling the Python expression `needle in line`
on strings (`"Fully Booked" in line`, `"Available" in status`, ...). -/
def containsSub (needle : List Char) : List Char → Bool
  | [] => needle.isEmpty
  | c :: rest => needle.isPrefixOf (c :: rest) || containsSub needle rest

/-- Whitespace class of the regex token `\s` (ASCII fragment). -/
def isSpaceB (c : Char) : Bool :=
  c == ' ' || c == '\t' || c == '\n' || c == '\r' || c == '\x0b' || c == '\x0c'

/-- Numeric value of a digit string, as Python `int(..)` on the captured
group of consecutive decimal digits. -/
def digitsToNat (ds : List Char) : Nat :=
  ds.foldl (fun acc c => acc * 10 + (c.toNat - '0'.toNat)) 0

/-- A calendar date, modelling a Python `datetime.date` (which orders and
compares lexicographically on year, month, day). -/
structure PDate where
  y : Nat
  m : Nat
  d : Nat

deriving instance DecidableEq for PDate

/-- Python `date` comparison `a <= b` (lexicographic on year, month, day). -/
def PDate.ble (a b : PDate) : Bool :=
  if a.y < b.y then true
  else if b.y < a.y then false
  else if a.m < b.m then true
  else if b.m < a.m then false
  else decide (a.d ≤ b.d)

/-- The fixed horizon `END_DATE = date(2026, 5, 31)` from `scraper.py`. -/
def END_DATE : PDate := ⟨2026, 5, 31⟩

/-- Gregorian leap-year rule, as implemented by Python's `datetime`. -/
def isLeapYear (y : Nat) : Bool :=
  y % 4 == 0 && (y % 100 != 0 || y % 400 == 0)

/-- Number of days of month `m` in year `y` (Python `datetime` calendar). -/
def daysInMonth (y m : Nat) : Nat :=
  if m = 2 then (if isLeapYear y then 29 else 28)
  else if m = 4 || m = 6 || m = 9 || m = 11 then 30
  else 31

/-- Lower-case three-letter month abbreviations recognised by `%b` in the C
locale used on the runner. -/
def monthAbbrevs : List (List Char) :=
  ["jan", "feb", "mar", "apr", "may", "jun",
   "jul", "aug", "sep", "oct", "nov", "dec"].map String.toList

/-- One-based index of a month abbreviation in `monthAbbrevs`. -/
def monthIndexAux : List (List Char) → Nat → List Char → Option Nat
  | [], _, _ => none
  | a :: rest, n, m => if a == m then some n else monthIndexAux rest (n + 1) m

/-- Month number for a (case-insensitive) three-letter abbreviation;
`strptime`'s `%b` matches abbreviated month names case-insensitively. -/
def monthIndex (m : List Char) : Option Nat :=
  monthIndexAux monthAbbrevs 1 (m.map Char.toLower)

/-- Model of `datetime.strptime(f"{day} {mon} {year}", "%d %b %Y").date()`
applied to the three captured groups of `DATE_PATTERN`: `day` is one or two
digits, `mon` three letters, `year` four digits.  Returns `none` exactly
when `strptime` (or the date constructor) raises `ValueError`: unknown
month abbreviation, day 0 or day past the end of the month, or year 0. -/
def parseDate (day mon year : List Char) : Option PDate :=
  match monthIndex mon with
  | none => none
  | some m =>
    let d := digitsToNat day
    let y := digitsToNat year
    if y = 0 then none
    else if d = 0 || decide (daysInMonth y m < d) then none
    else some ⟨y, m, d⟩

/-- The seven weekday names of the first alternation group of
`DATE_PATTERN`.  At any search position, at most one of them can be a
prefix of the text, so alternation order is immaterial. -/
def weekdays : List (List Char) :=
  ["Monday", "Tuesday", "Wednesday", "Thursday", "Friday",
   "Saturday", "Sunday"].map String.toList

/-- Try the weekday alternatives at the current position; on success return
the remaining text after the matched name. -/
def findWeekday : List (List Char) → List Char → Option (List Char)
  | [], _ => none
  | w :: ws, l => if w.isPrefixOf l then some (l.drop w.length) else findWeekday ws l

/-- Attempt to match `DATE_PATTERN` anchored at the current position:
weekday name, `\s+`, `(\d{1,2})`, `\s+`, `([A-Za-z]{3})`, `\s+`, `(\d{4})`.
Returns the three captured groups (day digits, month letters, year digits).
Greedy quantifier semantics collapse to maximal runs here because the
character classes of adjacent tokens are disjoint; a maximal digit run of
length three or more can never satisfy `(\d{1,2})\s+`. -/
def matchHeaderAt (l : List Char) : Option (List Char × List Char × List Char) :=
  match findWeekday weekdays l with
  | none => none
  | some r1 =>
    if (r1.takeWhile isSpaceB).isEmpty then none
    else
      let r2 := r1.dropWhile isSpaceB
      let ds := r2.takeWhile Char.isDigit
      if ds.isEmpty || decide (2 < ds.length) then none
      else
        let r3 := r2.dropWhile Char.isDigit
        if (r3.takeWhile isSpaceB).isEmpty then none
        else
          let r4 := r3.dropWhile isSpaceB
          let mon := r4.take 3
          if decide (mon.length = 3) && mon.all Char.isAlpha then
            let r5 := r4.drop 3
            if (r5.takeWhile isSpaceB).isEmpty then none
            else
              let r6 := r5.dropWhile isSpaceB
              let yr := r6.take 4
              if decide (yr.length = 4) && yr.all Char.isDigit then some (ds, mon, yr)
              else none
          else none

/-- `DATE_PATTERN.search(line)`: unanchored leftmost search, trying every
start position from the left and returning the first successful match's
captured groups. -/
def headerSearch : List Char → Option (List Char × List Char × List Char)
  | [] => none
  | c :: rest =>
    match matchHeaderAt (c :: rest) with
    | some g => some g
    | none => headerSearch rest

/-- A line opens a new block iff `DATE_PATTERN.search` finds a match. -/
def isHeaderLine (l : List Char) : Bool := (headerSearch l).isSome

/-- Attempt to match `(\d+)\s+Available` anchored at the current position.
As in `matchHeaderAt`, greedy matching reduces to maximal runs because
digits, whitespace and the literal `A` are pairwise disjoint. -/
def matchSpotsAt (l : List Char) : Option Nat :=
  let ds := l.takeWhile Char.isDigit
  if ds.isEmpty then none
  else
    let r1 := l.dropWhile Char.isDigit
    if (r1.takeWhile isSpaceB).isEmpty then none
    else
      let r2 := r1.dropWhile isSpaceB
      if ("Available".toList).isPrefixOf r2 then some (digitsToNat ds) else none

/-- `re.search(r"(\d+)\s+Available", line)`: leftmost match, returning the
integer value of the captured digit group. -/
def findSpots : List Char → Option Nat
  | [] => none
  | c :: rest =>
    match matchSpotsAt (c :: rest) with
    | some n => some n
    | none => findSpots rest

/-- The status string literal `"Fully Booked"`. -/
def fullyBookedS : List Char := "Fully Booked".toList

/-- The status string literal `"Available"`. -/
def availableS : List Char := "Available".toList

/-- One per-date record `(dt, status, spots)` as produced by
`parse_availability_from_html`: `status` is `None`, `"Available"` or
`"Fully Booked"`; `spots` is `None` or the parsed count. -/
structure Row where
  date : PDate
  status : Option (List Char)
  spots : Option Nat

deriving instance DecidableEq for Row

/-- One iteration of the `for line in block[1:]` loop of
`parse_availability_from_html` (scraper.py lines 72-82), threading the pair
`(status, spots)`:
a line containing `"Fully Booked"` sets `status` to `"Fully Booked"`;
otherwise a line containing `"Available"` sets `status` to `"Available"`
only when `status` is still `None`; independently, on any line containing
`"Available"`, a successful `(\d+)\s+Available` search overwrites `spots`. -/
def scanStep (acc : Option (List Char) × Option Nat) (line : List Char) :
    Option (List Char) × Option Nat :=
  let status :=
    if containsSub fullyBookedS line then some fullyBookedS
    else if containsSub availableS line && acc.1.isNone then some availableS
    else acc.1
  let spots :=
    if containsSub availableS line then
      match findSpots line with
      | some n => some n
      | none => acc.2
    else acc.2
  (status, spots)

/-- The full scan of a block's non-header lines, starting from
`status = None`, `spots = None`. -/
def scanBlock (ls : List (List Char)) : Option (List Char) × Option Nat :=
  ls.foldl scanStep (none, none)

/-- Status computed for a block's non-header lines. -/
def statusOf (ls : List (List Char)) : Option (List Char) := (scanBlock ls).1

/-- Spot count computed for a block's non-header lines. -/
def spotsOf (ls : List (List Char)) : Option Nat := (scanBlock ls).2

/-- Record extraction for one block (header line plus follow-on lines):
re-search the date pattern on the header, parse the date (skipping the
block when `strptime` fails), then scan the remaining lines. -/
def extractRecord (block : List (List Char)) : Option Row :=
  match block with
  | [] => none
  | b0 :: rest =>
    match headerSearch b0 with
    | none => none
    | some (day, mon, yr) =>
      match parseDate day mon yr with
      | none => none
      | some dt => some ⟨dt, statusOf rest, spotsOf rest⟩

/-- Indices of the header lines, modelling
`for i, line in enumerate(lines): if DATE_PATTERN.search(line): ...`
with the running index made explicit. -/
def dateIndicesFrom (n : Nat) : List (List Char) → List Nat
  | [] => []
  | l :: ls =>
    if isHeaderLine l then n :: dateIndicesFrom (n + 1) ls
    else dateIndicesFrom (n + 1) ls

/-- `date_indices` of `parse_availability_from_html`. -/
def dateIndices (lines : List (List Char)) : List Nat := dateIndicesFrom 0 lines

/-- Block `k` is `lines[date_indices[k] : date_indices[k+1]]`, the last
block running to the end of the input. -/
def mkBlocks (lines : List (List Char)) : List Nat → List (List (List Char))
  | [] => []
  | [i] => [lines.drop i]
  | i :: j :: rest => ((lines.drop i).take (j - i)) :: mkBlocks lines (j :: rest)

/-- The Date-Block Segmenter: one block per header line. -/
def blocksOf (lines : List (List Char)) : List (List (List Char)) :=
  mkBlocks lines (dateIndices lines)

/-- `parse_availability_from_html`, modelled from the point where the
ordered list of trimmed non-empty text lines exists (the markup-to-text
conversion is the external Line Normalizer). -/
def parse_availability_from_html (lines : List (List Char)) : List Row :=
  (blocksOf lines).filterMap extractRecord

/-- The filter predicate of `check_overland` (scraper.py lines 252-258):
keep a row iff `start_date <= dt <= END_DATE` and
`status and "Available" in status and (spots is None or spots > 0)`. -/
def availPred (startDate : PDate) (r : Row) : Bool :=
  if !(startDate.ble r.date && r.date.ble END_DATE) then false
  else
    match r.status with
    | none => false
    | some s =>
      !s.isEmpty && containsSub availableS s &&
        (match r.spots with
         | none => true
         | some n => decide (0 < n))

/-- The `interesting` list of `check_overland`. -/
def interestingOf (allDays : List Row) (startDate : PDate) : List Row :=
  allDays.filter (availPred startDate)

/-- Stable insertion of a row into a date-sorted list (rows with equal
dates keep their relative order, as Python's stable `sorted`). -/
def insertRowByDate (r : Row) : List Row → List Row
  | [] => [r]
  | x :: xs => if r.date.ble x.date then r :: x :: xs else x :: insertRowByDate r xs

/-- `sorted(interesting, key=lambda x: x[0])`. -/
def sortRowsByDate (l : List Row) : List Row := l.foldr insertRowByDate []

/-- A persisted snapshot: the ordered `{date, spots}` pairs.  Dates are
kept abstract rather than as ISO strings; `dt.isoformat()` is injective on
valid dates, so structural equality of these lists coincides with the
Python `==` on the corresponding lists of dictionaries. -/
abbrev SnapList := List (PDate × Option Nat)

/-- `current_state` of `check_overland` (lines 263-266). -/
def currentStateOf (allDays : List Row) (startDate : PDate) : SnapList :=
  (sortRowsByDate (interestingOf allDays startDate)).map (fun r => (r.date, r.spots))

/-- Observable contents of `state.json`, split by what
`load_previous_state` does with them:
* `unreadableOrBad`: the open or `json.load(f)` raises (unreadable file,
  malformed JSON);
* `validNonObj`: `json.load` succeeds but yields a non-object (e.g. the
  file holds `[1]`), so `data.get("availabilities", [])` raises
  `AttributeError`, swallowed by the `except Exception` handler;
* `validObjNoKey`: a JSON object without the `"availabilities"` key;
* `validObjWithKey l`: a JSON object whose `"availabilities"` value is the
  snapshot `l` (the shape `save_state` writes). -/
inductive StateFileContent where
  | unreadableOrBad : StateFileContent
  | validNonObj : StateFileContent
  | validObjNoKey : StateFileContent
  | validObjWithKey : SnapList → StateFileContent

deriving instance DecidableEq for StateFileContent

/-- `load_previous_state` (scraper.py lines 169-184): `None` when the file
is missing; otherwise `data.get("availabilities", [])` under a
`try/except Exception` that returns `None` on any raise. -/
def load_previous_state (file : Option StateFileContent) : Option SnapList :=
  match file with
  | none => none
  | some .unreadableOrBad => none
  | some .validNonObj => none
  | some .validObjNoKey => some []
  | some (.validObjWithKey l) => some l

/-- `save_state`: full-file replace with `{"availabilities": avail_list}`. -/
def save_state (l : SnapList) : StateFileContent := .validObjWithKey l

/-- Which branch of `check_overland` a run takes (the code has no explicit
decision value; these labels name its four control-flow outcomes). -/
inductive Decision where
  | firstRun | unchanged | changedToAvailable | changedToNone

deriving instance DecidableEq for Decision

/-- Side effects of a run, in program order: a state-file write, or a
successfully dispatched Telegram notification. -/
inductive Event where
  | save : SnapList → Event
  | notify : Event

deriving instance DecidableEq for Event

/-- Result of one `check_overland` run: final state-file contents, the
side-effect events in order, the branch taken, and whether the run aborted
because the notification dispatch raised. -/
structure RunResult where
  file : Option StateFileContent
  events : List Event
  decision : Decision
  aborted : Bool

deriving instance DecidableEq for RunResult

/-- `check_overland` (scraper.py lines 242-294), parameterised by its
collaborators: `allDays` is the fetched row list, `startDate` is
`get_start_date()`, `file` the current `state.json` contents, and
`deliveryOk` tells whether `send_telegram_message` succeeds (when it does
not, it raises; the run aborts at that point and later statements do not
execute).  On a first run the code saves the state *before* dispatching;
on subsequent changed runs it notifies first and saves afterwards. -/
def check_overland (allDays : List Row) (startDate : PDate)
    (file : Option StateFileContent) (deliveryOk : Bool) : RunResult :=
  let interesting := interestingOf allDays startDate
  let current := currentStateOf allDays startDate
  match load_previous_state file with
  | none =>
    if interesting.isEmpty then
      ⟨some (save_state current), [.save current], .firstRun, false⟩
    else if deliveryOk then
      ⟨some (save_state current), [.save current, .notify], .firstRun, false⟩
    else
      ⟨some (save_state current), [.save current], .firstRun, true⟩
  | some prev =>
    if current = prev then
      ⟨file, [], .unchanged, false⟩
    else if deliveryOk then
      ⟨some (save_state current), [.notify, .save current],
        (if interesting.isEmpty then .changedToNone else .changedToAvailable), false⟩
    else
      ⟨file, [],
        (if interesting.isEmpty then .changedToNone else .changedToAvailable), true⟩

/-- The `all_by_date` dictionary of `fetch_all_days`: insertion-ordered
keys, assignment to an existing key replaces in place. -/
abbrev AByD := List (PDate × (Option (List Char) × Option Nat))

/-- Python dict assignment `all_by_date[dt] = (status, spots)`. -/
def dictUpsert (m : AByD) (k : PDate) (v : Option (List Char) × Option Nat) : AByD :=
  match m with
  | [] => [(k, v)]
  | (k', v') :: rest =>
    if k' = k then (k, v) :: rest else (k', v') :: dictUpsert rest k v

/-- Python `dt in all_by_date`. -/
def containsKey (m : AByD) (k : PDate) : Bool := m.any (fun kv => kv.1 == k)

/-- Merging one parsed page into the dictionary, in page order. -/
def mergePage (m : AByD) (page : List Row) : AByD :=
  page.foldl (fun acc r => dictUpsert acc r.date (r.status, r.spots)) m

/-- Python `max(all_by_date.keys())`: fold keeping the strictly larger
date (keys are distinct, so tie behaviour is immaterial). -/
def maxKeyD (m : AByD) : Option PDate :=
  m.foldl
    (fun acc kv =>
      match acc with
      | none => some kv.1
      | some x => if x.ble kv.1 && !(kv.1.ble x) then some kv.1 else some x)
    none

/-- Why the pagination loop of `fetch_all_days` ended. -/
inductive StopReason where
  | emptyPage | horizon | noProgress | noNewDates | pageLimit

deriving instance DecidableEq for StopReason

/-- Outcome of the pagination loop: the accumulated dictionary, how many
loop pages were fetched, and why the loop ended. -/
structure FetchOut where
  dict : AByD
  pagesFetched : Nat
  reason : StopReason

deriving instance DecidableEq for FetchOut

/-- The `for page_num in range(1, 80)` loop of `fetch_all_days`
(scraper.py lines 120-159).  `pages` is the stream of parsed pages the
site returns for successive `changeDate` requests; `p` is the current
`page_num`; the fuel is the number of loop iterations left (79 at entry).
Per iteration, in program order: stop if the page parsed to no rows; merge
the page, recording whether it added any new date; stop if the maximum
date seen reached `END_DATE`; stop if the maximum date did not strictly
increase; stop if the page added no new date; otherwise continue. -/
def fetch_pages_loop (pages : Nat → List Row) (dict : AByD)
    (maxSeen : Option PDate) (p : Nat) : Nat → FetchOut
  | 0 => ⟨dict, p - 1, .pageLimit⟩
  | fuel + 1 =>
    let page := pages p
    if page.isEmpty then ⟨dict, p, .emptyPage⟩
    else
      let newDates := page.any (fun r => !(containsKey dict r.date))
      let dict' := mergePage dict page
      match maxKeyD dict' with
      | none => ⟨dict', p, .emptyPage⟩
      | some cmax =>
        if END_DATE.ble cmax then ⟨dict', p, .horizon⟩
        else if (match maxSeen with | some m => cmax.ble m | none => false) then
          ⟨dict', p, .noProgress⟩
        else if !newDates then ⟨dict', p, .noNewDates⟩
        else fetch_pages_loop pages dict' (some cmax) (p + 1) fuel

/-- `fetch_all_days` (scraper.py lines 89-166) up to pagination: merge the
initial `?Category=OVERLAND` page, then page forward at most 79 times.
The final flattening of the dictionary into a sorted list is omitted; no
claim concerns it. -/
def fetch_all_days (initialPage : List Row) (pages : Nat → List Row) : FetchOut :=
  let dict0 := mergePage [] initialPage
  fetch_pages_loop pages dict0 (maxKeyD dict0) 1 79

/-- Specification-side restatement of the per-page stop test of
`fetch_pages_loop`, in the order the code checks its conditions.  `none`
means the loop goes on to the next page. -/
def stopCheck (dict : AByD) (maxSeen : Option PDate) (page : List Row) :
    Option StopReason :=
  if page.isEmpty then some .emptyPage
  else
    let newDates := page.any (fun r => !(containsKey dict r.date))
    match maxKeyD (mergePage dict page) with
    | none => some .emptyPage
    | some cmax =>
      if END_DATE.ble cmax then some .horizon
      else if (match maxSeen with | some m => cmax.ble m | none => false) then
        some .noProgress
      else if !newDates then some .noNewDates
      else none

/-- Per-line result of the `(\d+)\s+Available` update in the block scan:
the guard `"Available" in line` of the code, then the regex search. -/
def spotsPat (l : List Char) : Option Nat :=
  if containsSub availableS l then findSpots l else none

/-- A header line whose date portion fails calendar parsing (matched by
`DATE_PATTERN` but rejected by `strptime`). -/
def headerFailsB (l : List Char) : Bool :=
  match headerSearch l with
  | none => false
  | some (day, mon, yr) => (parseDate day mon yr).isNone

/-! ## Theorems -/

/-- C5: with a prior snapshot present and the current ordered `{date,
spots}` sequence structurally equal to it, the run takes the unchanged
branch: no notification, no state write, file untouched. -/
theorem c5_unchanged_frame (allDays : List Row) (startDate : PDate)
    (file : Option StateFileContent) (p : SnapList) (deliveryOk : Bool)
    (h1 : load_previous_state file = some p)
    (h2 : currentStateOf allDays startDate = p) :
    check_overland allDays startDate file deliveryOk =
      ⟨file, [], .unchanged, false⟩ := by
  simp [check_overland, h1, h2]

/-- C5 witness: a concrete run whose snapshot equals the current state. -/
theorem c5_unchanged_frame_witness :
    check_overland [] ⟨2026, 1, 1⟩ (some (.validObjWithKey [])) true =
      ⟨some (.validObjWithKey []), [], .unchanged, false⟩ :=
  c5_unchanged_frame [] ⟨2026, 1, 1⟩ (some (.validObjWithKey [])) [] true rfl rfl

/-- C7: an unreadable or corrupt snapshot loads as `None`, exactly like a
missing file, so the run takes the first-run branch and behaves identically
to a run with no state file at all. -/
theorem c7_corrupt_state_is_absent (allDays : List Row) (startDate : PDate)
    (deliveryOk : Bool) :
    load_previous_state (some .unreadableOrBad) = load_previous_state none
    ∧ check_overland allDays startDate (some .unreadableOrBad) deliveryOk =
        check_overland allDays startDate none deliveryOk
    ∧ (check_overland allDays startDate (some .unreadableOrBad) deliveryOk).decision =
        .firstRun := by
  refine ⟨rfl, rfl, ?_⟩
  simp only [check_overland, load_previous_state]
  split
  · rfl
  · split <;> rfl

/-- C9: running the pipeline a second time on the same fetched rows and
the state file left behind by a completed first run yields the unchanged
decision. -/
theorem c9_second_run_unchanged (allDays : List Row) (startDate : PDate)
    (file : Option StateFileContent) :
    (check_overland allDays startDate
        (check_overland allDays startDate file true).file true).decision =
      .unchanged := by
  have hsaved : ∀ c : SnapList, c = currentStateOf allDays startDate →
      (check_overland allDays startDate (some (.validObjWithKey c)) true).decision =
        .unchanged := by
    intro c hc
    subst hc
    simp [check_overland, load_previous_state]
  cases h : load_previous_state file with
  | none =>
    have hfile : (check_overland allDays startDate file true).file =
        some (.validObjWithKey (currentStateOf allDays startDate)) := by
      simp only [check_overland, h, save_state]
      split
      · rfl
      · rfl
    rw [hfile]
    exact hsaved _ rfl
  | some p =>
    by_cases hc : currentStateOf allDays startDate = p
    · have hfile : (check_overland allDays startDate file true).file = file := by
        simp [check_overland, h, hc]
      rw [hfile]
      simp [check_overland, h, hc]
    · have hfile : (check_overland allDays startDate file true).file =
          some (.validObjWithKey (currentStateOf allDays startDate)) := by
        simp [check_overland, h, hc, save_state]
      rw [hfile]
      exact hsaved _ rfl

/-- C10 counterexample: a state file holding valid JSON that is not an
object (e.g. the text `[1]`) is valid JSON lacking the `"availabilities"`
key, yet `load_previous_state` returns the absent marker, not the empty
sequence, and the run is classified as a first run. -/
theorem c10_counterexample :
    load_previous_state (some .validNonObj) = none
    ∧ decide (load_previous_state (some .validNonObj) = some ([] : SnapList)) = false
    ∧ (check_overland [] ⟨2026, 1, 1⟩ (some .validNonObj) true).decision = .firstRun := by
  decide

/-- C10 amended: if the state file holds a valid JSON *object* lacking the
`"availabilities"` key, loading yields the empty sequence and the run is
classified by the unchanged/changed branches; the absent marker results
exactly when the file is missing, unreadable or malformed, or parses to a
non-object value (whose `.get` raises inside the `except` handler). -/
theorem c10_load_state_amended (file : Option StateFileContent) :
    (load_previous_state file = none ↔
      (file = none ∨ file = some .unreadableOrBad ∨ file = some .validNonObj))
    ∧ load_previous_state (some .validObjNoKey) = some []
    ∧ (∀ l : SnapList, load_previous_state (some (.validObjWithKey l)) = some l)
    ∧ (∀ (allDays : List Row) (startDate : PDate) (deliveryOk : Bool),
        (check_overland allDays startDate (some .validObjNoKey) deliveryOk).decision =
            .unchanged
        ∨ (check_overland allDays startDate (some .validObjNoKey) deliveryOk).decision =
            .changedToAvailable
        ∨ (check_overland allDays startDate (some .validObjNoKey) deliveryOk).decision =
            .changedToNone) := by
  refine ⟨?_, rfl, fun l => rfl, ?_⟩
  · rcases file with _ | c
    · simp [load_previous_state]
    · cases c <;> simp [load_previous_state]
  · intro allDays startDate deliveryOk
    simp only [check_overland, load_previous_state]
    by_cases hc : currentStateOf allDays startDate = ([] : SnapList)
    · simp [hc]
    · simp only [hc, if_false]
      split
      · split
        · right; right; rfl
        · right; left; rfl
      · split
        · right; right; rfl
        · right; left; rfl

/-- C10 witness: the amended behaviour at concrete inputs. -/
theorem c10_load_state_amended_witness :
    load_previous_state (some .validObjNoKey) = some []
    ∧ ((check_overland [] ⟨2026, 1, 1⟩ (some .validObjNoKey) true).decision = .unchanged
       ∨ (check_overland [] ⟨2026, 1, 1⟩ (some .validObjNoKey) true).decision =
           .changedToAvailable
       ∨ (check_overland [] ⟨2026, 1, 1⟩ (some .validObjNoKey) true).decision =
           .changedToNone) :=
  ⟨(c10_load_state_amended (some .validObjNoKey)).2.1,
   (c10_load_state_amended (some .validObjNoKey)).2.2.2 [] ⟨2026, 1, 1⟩ true⟩

/-- C1 counterexample: a first run with availability and a failing
dispatch.  The state is saved before the notification is attempted, so the
delivery error (aborted run) leaves the new snapshot persisted: the
previously persisted state — here its absence — does not remain, and the
change will not be re-notified. -/
theorem c1_counterexample :
    (check_overland [⟨⟨2026, 1, 5⟩, some availableS, some 1⟩] ⟨2026, 1, 1⟩
        none false).aborted = true
    ∧ (check_overland [⟨⟨2026, 1, 5⟩, some availableS, some 1⟩] ⟨2026, 1, 1⟩
        none false).events = [.save [(⟨2026, 1, 5⟩, some 1)]]
    ∧ (check_overland [⟨⟨2026, 1, 5⟩, some availableS, some 1⟩] ⟨2026, 1, 1⟩
        none false).file = some (.validObjWithKey [(⟨2026, 1, 5⟩, some 1)])
    ∧ decide ((check_overland [⟨⟨2026, 1, 5⟩, some availableS, some 1⟩] ⟨2026, 1, 1⟩
        none false).file = none) = false := by
  decide

/-- C1 amended: only on runs with a prior snapshot present is the snapshot
written strictly after the notification has been dispatched successfully —
a delivery error aborts the run with no events, leaving the old snapshot
for retry, while a successful dispatch produces the events notify-then-
save.  (On a first run the snapshot is written before dispatch, so a
delivery failure there still leaves the new snapshot persisted.) -/
theorem c1_persist_after_notify_amended (allDays : List Row) (startDate : PDate)
    (file : Option StateFileContent) (p : SnapList)
    (h1 : load_previous_state file = some p)
    (h2 : currentStateOf allDays startDate ≠ p) :
    (check_overland allDays startDate file false).file = file
    ∧ (check_overland allDays startDate file false).events = []
    ∧ (check_overland allDays startDate file false).aborted = true
    ∧ (check_overland allDays startDate file true).events =
        [.notify, .save (currentStateOf allDays startDate)]
    ∧ (check_overland allDays startDate file true).file =
        some (save_state (currentStateOf allDays startDate)) := by
  refine ⟨?_, ?_, ?_, ?_, ?_⟩ <;> simp [check_overland, h1, h2]

/-- C1 witness: a subsequent run whose current state differs from the
snapshot, with failing and with succeeding dispatch. -/
theorem c1_persist_after_notify_amended_witness :
    (check_overland [] ⟨2026, 1, 1⟩
        (some (.validObjWithKey [(⟨2026, 1, 5⟩, some 1)])) false).file =
      some (.validObjWithKey [(⟨2026, 1, 5⟩, some 1)])
    ∧ (check_overland [] ⟨2026, 1, 1⟩
        (some (.validObjWithKey [(⟨2026, 1, 5⟩, some 1)])) false).events = []
    ∧ (check_overland [] ⟨2026, 1, 1⟩
        (some (.validObjWithKey [(⟨2026, 1, 5⟩, some 1)])) false).aborted = true
    ∧ (check_overland [] ⟨2026, 1, 1⟩
        (some (.validObjWithKey [(⟨2026, 1, 5⟩, some 1)])) true).events =
        [.notify, .save (currentStateOf [] ⟨2026, 1, 1⟩)]
    ∧ (check_overland [] ⟨2026, 1, 1⟩
        (some (.validObjWithKey [(⟨2026, 1, 5⟩, some 1)])) true).file =
        some (save_state (currentStateOf [] ⟨2026, 1, 1⟩)) :=
  c1_persist_after_notify_amended [] ⟨2026, 1, 1⟩
    (some (.validObjWithKey [(⟨2026, 1, 5⟩, some 1)])) [(⟨2026, 1, 5⟩, some 1)]
    rfl (by decide)

/-- Closed form of the status component of the block scan, for any initial
scan state: a line containing `"Fully Booked"` anywhere forces that status;
otherwise a non-`None` initial status is kept; otherwise the first line
containing `"Available"` sets that status. -/
theorem scanFold_fst (ls : List (List Char)) : ∀ (st : Option (List Char)) (sp : Option Nat),
    (ls.foldl scanStep (st, sp)).1 =
      if ls.any (fun l => containsSub fullyBookedS l) then some fullyBookedS
      else if st.isSome then st
      else if ls.any (fun l => containsSub availableS l) then some availableS
      else none := by
  induction ls with
  | nil => intro st sp; cases st <;> simp
  | cons l ls ih =>
    intro st sp
    simp only [List.foldl_cons, List.any_cons]
    rw [ih]
    by_cases hfb : containsSub fullyBookedS l <;>
      by_cases hav : containsSub availableS l <;>
      cases st <;>
      simp [scanStep, hfb, hav]

/-- The spots component of the block scan, rephrased as a fold over the
per-line `(\d+)\s+Available` results. -/
theorem scanFold_snd (ls : List (List Char)) : ∀ (st : Option (List Char)) (sp : Option Nat),
    (ls.foldl scanStep (st, sp)).2 =
      (ls.filterMap spotsPat).foldl (fun _ n => some n) sp := by
  induction ls with
  | nil => intro st sp; simp
  | cons l ls ih =>
    intro st sp
    simp only [List.foldl_cons]
    rw [ih]
    by_cases hav : containsSub availableS l
    · cases hf : findSpots l <;>
        simp [scanStep, spotsPat, hav, hf, List.filterMap_cons]
    · simp [scanStep, spotsPat, hav, List.filterMap_cons]

/-- Folding last-wins updates over a list keeps exactly its last element. -/
theorem foldl_keep_last (L : List Nat) : ∀ sp : Option Nat,
    L.foldl (fun _ n => some n) sp =
      match L.getLast? with
      | some n => some n
      | none => sp := by
  induction L with
  | nil => intro sp; simp
  | cons a L ih =>
    intro sp
    simp only [List.foldl_cons]
    rw [ih]
    cases L with
    | nil => simp
    | cons b L' =>
      rw [List.getLast?_cons_cons]
      cases hX : (b :: L').getLast? with
      | none => exact absurd (List.getLast?_eq_none_iff.mp hX) (by simp)
      | some n => rfl

/-- Substring containment agrees with `List.IsInfix`. -/
theorem containsSub_iff (needle : List Char) : ∀ hay : List Char,
    containsSub needle hay = true ↔ needle <:+: hay := by
  intro hay
  induction hay with
  | nil =>
    simp only [containsSub, List.isEmpty_iff]
    constructor
    · rintro rfl; exact List.infix_refl []
    · intro h; exact List.eq_nil_of_infix_nil h
  | cons c rest ih =>
    simp only [containsSub, Bool.or_eq_true, List.isPrefixOf_iff_prefix, ih,
      List.infix_cons_iff]

/-- An anchored `(\d+)\s+Available` match forces the literal `Available`
to occur in the line. -/
theorem matchSpotsAt_contains (l : List Char) (n : Nat)
    (h : matchSpotsAt l = some n) : containsSub availableS l = true := by
  rw [containsSub_iff]
  simp only [matchSpotsAt] at h
  split at h
  · exact absurd h (by simp)
  · split at h
    · exact absurd h (by simp)
    · split at h
      case isTrue hpre =>
        have h1 : availableS <+:
            ((l.dropWhile Char.isDigit).dropWhile isSpaceB) := by
          have hp2 := Iff.mp List.isPrefixOf_iff_prefix hpre
          simpa [availableS] using hp2
        have h2 : ((l.dropWhile Char.isDigit).dropWhile isSpaceB) <:+
            l.dropWhile Char.isDigit := List.dropWhile_suffix _
        have h3 : l.dropWhile Char.isDigit <:+ l := List.dropWhile_suffix _
        have hi1 := List.IsPrefix.isInfix h1
        have hi2 := List.IsSuffix.isInfix (h2.trans h3)
        exact hi1.trans hi2
      case isFalse => exact absurd h (by simp)

/-- A successful `(\d+)\s+Available` search forces the literal `Available`
to occur in the line: the code's `"Available" in line` guard around the
search is redundant. -/
theorem findSpots_contains : ∀ (l : List Char) (n : Nat),
    findSpots l = some n → containsSub availableS l = true := by
  intro l
  induction l with
  | nil => intro n h; exact absurd h (by simp [findSpots])
  | cons c rest ih =>
    intro n h
    simp only [findSpots] at h
    rw [containsSub_iff, List.infix_cons_iff]
    cases hm : matchSpotsAt (c :: rest) with
    | some m =>
      have := matchSpotsAt_contains (c :: rest) m hm
      rw [containsSub_iff, List.infix_cons_iff] at this
      exact this
    | none =>
      rw [hm] at h
      right
      rw [← containsSub_iff]
      exact ih n h

/-- The guarded per-line spots update equals the bare regex search. -/
theorem spotsPat_eq_findSpots : spotsPat = findSpots := by
  funext l
  unfold spotsPat
  by_cases hav : containsSub availableS l
  · simp [hav]
  · cases hf : findSpots l with
    | none => simp [hav]
    | some n => exact absurd (findSpots_contains l n hf) (by simp [hav])

/-- C2 counterexample: status is not first-match-wins.  In a block whose
non-header lines are `"Available"` then `"Fully Booked"`, the first line
sets `status = "Available"`, but the later `"Fully Booked"` line
overwrites it. -/
theorem c2_counterexample :
    statusOf [availableS] = some availableS
    ∧ statusOf [availableS, fullyBookedS] = some fullyBookedS
    ∧ decide (statusOf [availableS, fullyBookedS] = some availableS) = false := by
  decide

/-- C2 amended: `"Fully Booked"` dominates rather than first-match-wins —
a line containing `"Fully Booked"` always sets the status, overwriting an
earlier `"Available"`, while a line containing `"Available"` sets the
status only when it is still unset.  Equivalently, the status is
`"Fully Booked"` iff some line contains that token, else `"Available"`
iff some line contains that token, else unset.  In particular a block with
`"Fully Booked"` and a later `"Available"` line yields `"Fully Booked"`,
as the claim's special case states. -/
theorem c2_status_precedence_amended (ls : List (List Char)) :
    statusOf ls =
      (if ls.any (fun l => containsSub fullyBookedS l) then some fullyBookedS
       else if ls.any (fun l => containsSub availableS l) then some availableS
       else none)
    ∧ statusOf [fullyBookedS, availableS] = some fullyBookedS := by
  constructor
  · have h := scanFold_fst ls none none
    simpa [statusOf, scanBlock] using h
  · decide

/-- C3: spots is computed independently of the status decision and is
last-match-wins — it equals the captured integer of the last line matched
by `(\d+)\s+Available`, and is unset when no line matches; a block with
lines `"1 Available"` then `"3 Available"` yields 3. -/
theorem c3_spots_last_match (ls : List (List Char)) :
    spotsOf ls = (ls.filterMap findSpots).getLast?
    ∧ spotsOf ["1 Available".toList, "3 Available".toList] = some 3 := by
  constructor
  · have h := scanFold_snd ls none none
    rw [spotsOf, scanBlock, h, spotsPat_eq_findSpots, foldl_keep_last]
    cases hX : (ls.filterMap findSpots).getLast? <;> rfl
  · decide

/-- C4: for records carrying one of the three parser-produced statuses,
the window filter keeps a record iff its date lies in the inclusive window
and its status is `"Available"` with a positive or absent spot count; a
`"Fully Booked"` or status-less record is never kept. -/
theorem c4_window_filter (startDate : PDate) (r : Row)
    (h : r.status = none ∨ r.status = some availableS ∨ r.status = some fullyBookedS) :
    (availPred startDate r = true ↔
      (startDate.ble r.date = true ∧ r.date.ble END_DATE = true
       ∧ r.status = some availableS
       ∧ (r.spots = none ∨ ∃ n, r.spots = some n ∧ 0 < n)))
    ∧ ∀ allDays : List Row,
        r ∈ interestingOf allDays startDate ↔ r ∈ allDays ∧ availPred startDate r = true := by
  constructor
  · have hav : containsSub availableS availableS = true := by decide
    have hfb : containsSub availableS fullyBookedS = false := by decide
    have hne : fullyBookedS ≠ availableS := by decide
    rcases h with h | h | h
    · simp [availPred, h]
    · have hemp : availableS.isEmpty = false := by decide
      by_cases hA : startDate.ble r.date <;>
        by_cases hB : r.date.ble END_DATE <;>
        cases hs : r.spots <;>
        simp [availPred, h, hA, hB, hs, hav, hemp]
    · rw [show availPred startDate r = false from by simp [availPred, h, hfb]]
      simp [h, hne]
  · intro allDays
    exact List.mem_filter

/-- C4 witness: an in-window available record passes the filter. -/
theorem c4_window_filter_witness :
    availPred ⟨2026, 1, 1⟩ ⟨⟨2026, 1, 5⟩, some availableS, some 2⟩ = true := by
  have h := (c4_window_filter ⟨2026, 1, 1⟩ ⟨⟨2026, 1, 5⟩, some availableS, some 2⟩
    (Or.inr (Or.inl rfl))).1
  exact h.mpr ⟨by decide, by decide, rfl, Or.inr ⟨2, rfl, by decide⟩⟩


/-- Shifting the enumeration start shifts every recorded header index. -/
theorem dateIndicesFrom_succ (ls : List (List Char)) : ∀ n : Nat,
    dateIndicesFrom (n + 1) ls = (dateIndicesFrom n ls).map (· + 1) := by
  induction ls with
  | nil => intro n; rfl
  | cons l ls ih =>
    intro n
    by_cases h : isHeaderLine l <;> simp [dateIndicesFrom, h, ih]

/-- Header indices of a cons: a header line contributes index 0, and the
tail's indices all shift by one. -/
theorem dateIndices_cons (a : List Char) (ls : List (List Char)) :
    dateIndices (a :: ls) =
      if isHeaderLine a then 0 :: (dateIndices ls).map (· + 1)
      else (dateIndices ls).map (· + 1) := by
  by_cases h : isHeaderLine a <;>
    simp [dateIndices, dateIndicesFrom, h, dateIndicesFrom_succ]

/-- Slicing at uniformly shifted indices on a cons reproduces the slices
of the tail. -/
theorem mkBlocks_shift : ∀ (idxs : List Nat) (a : List Char) (ls : List (List Char)),
    mkBlocks (a :: ls) (idxs.map (· + 1)) = mkBlocks ls idxs := by
  intro idxs
  induction idxs with
  | nil => intro a ls; rfl
  | cons i rest ih =>
    intro a ls
    cases rest with
    | nil => simp [mkBlocks]
    | cons j rest' =>
      show ((a :: ls).drop (i + 1)).take ((j + 1) - (i + 1)) ::
          mkBlocks (a :: ls) ((j :: rest').map (· + 1)) =
        (ls.drop i).take (j - i) :: mkBlocks ls (j :: rest')
      rw [List.drop_succ_cons, Nat.add_sub_add_right, ih a ls]

/-- A non-header first line contributes no block. -/
theorem blocksOf_cons_not_header (a : List Char) (ls : List (List Char))
    (h : isHeaderLine a = false) : blocksOf (a :: ls) = blocksOf ls := by
  rw [blocksOf, dateIndices_cons, if_neg (by simp [h]), mkBlocks_shift, blocksOf]

/-- A header first line starts a block headed by that line, followed by
exactly the blocks of the tail. -/
theorem blocksOf_cons_header (a : List Char) (ls : List (List Char))
    (h : isHeaderLine a = true) :
    ∃ t, blocksOf (a :: ls) = (a :: t) :: blocksOf ls := by
  rw [blocksOf, dateIndices_cons, if_pos h]
  cases hi : dateIndices ls with
  | nil =>
    refine ⟨ls, ?_⟩
    have hb : blocksOf ls = [] := by rw [blocksOf, hi]; rfl
    rw [hb]
    rfl
  | cons j rest =>
    refine ⟨ls.take j, ?_⟩
    have hb : blocksOf ls = mkBlocks ls (j :: rest) := by rw [blocksOf, hi]
    rw [hb]
    show (a :: ls.take j) :: mkBlocks (a :: ls) ((j :: rest).map (· + 1)) =
      (a :: ls.take j) :: mkBlocks ls (j :: rest)
    rw [mkBlocks_shift]

/-- Records plus skipped malformed headers account for all blocks. -/
theorem records_add_failures (lines : List (List Char)) :
    (parse_availability_from_html lines).length + lines.countP headerFailsB =
      (blocksOf lines).length := by
  induction lines with
  | nil => rfl
  | cons a ls ih =>
    rw [parse_availability_from_html] at ih
    by_cases h : isHeaderLine a
    · obtain ⟨t, ht⟩ := blocksOf_cons_header a ls h
      obtain ⟨g, hg⟩ := Option.isSome_iff_exists.mp h
      rcases g with ⟨day, mon, yr⟩
      rw [parse_availability_from_html, ht]
      cases hp : parseDate day mon yr with
      | none =>
        have hfail : headerFailsB a = true := by simp [headerFailsB, hg, hp]
        have hext : extractRecord (a :: t) = none := by simp [extractRecord, hg, hp]
        simp only [List.filterMap_cons, hext, List.countP_cons, hfail,
          List.length_cons]
        simp only [if_pos]
        omega
      | some dt =>
        have hfail : headerFailsB a = false := by simp [headerFailsB, hg, hp]
        have hext : extractRecord (a :: t) =
            some ⟨dt, statusOf t, spotsOf t⟩ := by
          simp [extractRecord, hg, hp]
        simp only [List.filterMap_cons, hext, List.countP_cons, hfail,
          List.length_cons]
        simp
        omega
    · have hh : isHeaderLine a = false := by simpa using h
      have hsearch : headerSearch a = none := by
        cases hs : headerSearch a with
        | none => rfl
        | some g =>
          rw [isHeaderLine, hs] at hh
          simp at hh
      have hfail : headerFailsB a = false := by simp [headerFailsB, hsearch]
      rw [parse_availability_from_html, blocksOf_cons_not_header a ls hh,
        List.countP_cons, hfail]
      simp
      omega

/-- C6: the Extractor produces one record per Segmenter block except for
blocks whose header line's date portion fails calendar parsing, and an
input with no header lines yields zero blocks and zero records. -/
theorem c6_record_count (lines : List (List Char)) :
    (parse_availability_from_html lines).length =
      (blocksOf lines).length - lines.countP headerFailsB
    ∧ (dateIndices lines = [] →
        blocksOf lines = [] ∧ parse_availability_from_html lines = []) := by
  constructor
  · have h := records_add_failures lines
    omega
  · intro h
    have hb : blocksOf lines = [] := by rw [blocksOf, h]; rfl
    exact ⟨hb, by rw [parse_availability_from_html, hb]; rfl⟩

/-- C6 witness: a headerless input yields zero blocks and records. -/
theorem c6_record_count_witness :
    blocksOf ["hello".toList] = []
    ∧ parse_availability_from_html ["hello".toList] = [] :=
  (c6_record_count ["hello".toList]).2 (by decide)

/-- One step of the pagination loop, phrased through the per-page stop
test `stopCheck`: when the test fires the loop ends at the current page
with that reason, and when it does not the loop continues with the merged
dictionary and the new maximum date. -/
theorem fetch_loop_step (pages : Nat → List Row) (dict : AByD)
    (maxSeen : Option PDate) (p fuel : Nat) :
    (∀ rsn, stopCheck dict maxSeen (pages p) = some rsn →
        (fetch_pages_loop pages dict maxSeen p (fuel + 1)).reason = rsn
        ∧ (fetch_pages_loop pages dict maxSeen p (fuel + 1)).pagesFetched = p)
    ∧ (stopCheck dict maxSeen (pages p) = none →
        fetch_pages_loop pages dict maxSeen p (fuel + 1) =
          fetch_pages_loop pages (mergePage dict (pages p))
            (maxKeyD (mergePage dict (pages p))) (p + 1) fuel) := by
  by_cases h1 : (pages p).isEmpty
  · have hsc : stopCheck dict maxSeen (pages p) = some .emptyPage := by
      simp [stopCheck, h1]
    constructor
    · intro rsn hr
      rw [hsc] at hr
      injection hr with hr'
      subst hr'
      constructor <;> simp [fetch_pages_loop, h1]
    · intro hr
      rw [hsc] at hr
      exact absurd hr (by simp)
  · cases hm : maxKeyD (mergePage dict (pages p)) with
    | none =>
      have hsc : stopCheck dict maxSeen (pages p) = some .emptyPage := by
        simp [stopCheck, h1, hm]
      constructor
      · intro rsn hr
        rw [hsc] at hr
        injection hr with hr'
        subst hr'
        constructor <;> simp [fetch_pages_loop, h1, hm]
      · intro hr
        rw [hsc] at hr
        exact absurd hr (by simp)
    | some cmax =>
      by_cases h2 : END_DATE.ble cmax
      · have hsc : stopCheck dict maxSeen (pages p) = some .horizon := by
          simp [stopCheck, h1, hm, h2]
        constructor
        · intro rsn hr
          rw [hsc] at hr
          injection hr with hr'
          subst hr'
          constructor <;> simp [fetch_pages_loop, h1, hm, h2]
        · intro hr
          rw [hsc] at hr
          exact absurd hr (by simp)
      · cases maxSeen with
        | none =>
          by_cases h4 : (pages p).any (fun r => !(containsKey dict r.date))
          · have hsc : stopCheck dict none (pages p) = none := by
              simp [stopCheck, h1, hm, h2, h4]
            constructor
            · intro rsn hr
              rw [hsc] at hr
              exact absurd hr (by simp)
            · intro hr
              simp [fetch_pages_loop, h1, hm, h2, h4]
          · have hsc : stopCheck dict none (pages p) = some .noNewDates := by
              simp [stopCheck, h1, hm, h2, h4]
            constructor
            · intro rsn hr
              rw [hsc] at hr
              injection hr with hr'
              subst hr'
              constructor <;> simp [fetch_pages_loop, h1, hm, h2, h4]
            · intro hr
              rw [hsc] at hr
              exact absurd hr (by simp)
        | some m =>
          by_cases h3 : cmax.ble m
          · have hsc : stopCheck dict (some m) (pages p) = some .noProgress := by
              simp [stopCheck, h1, hm, h2, h3]
            constructor
            · intro rsn hr
              rw [hsc] at hr
              injection hr with hr'
              subst hr'
              constructor <;> simp [fetch_pages_loop, h1, hm, h2, h3]
            · intro hr
              rw [hsc] at hr
              exact absurd hr (by simp)
          · by_cases h4 : (pages p).any (fun r => !(containsKey dict r.date))
            · have hsc : stopCheck dict (some m) (pages p) = none := by
                simp [stopCheck, h1, hm, h2, h3, h4]
              constructor
              · intro rsn hr
                rw [hsc] at hr
                exact absurd hr (by simp)
              · intro hr
                simp [fetch_pages_loop, h1, hm, h2, h3, h4]
            · have hsc : stopCheck dict (some m) (pages p) = some .noNewDates := by
                simp [stopCheck, h1, hm, h2, h3, h4]
              constructor
              · intro rsn hr
                rw [hsc] at hr
                injection hr with hr'
                subst hr'
                constructor <;> simp [fetch_pages_loop, h1, hm, h2, h3, h4]
              · intro hr
                rw [hsc] at hr
                exact absurd hr (by simp)

/-- C8 counterexample: pagination can stop even though the last page
yielded a new date, the horizon was not reached and the page limit was
not hit.  With an initial page for 2026-01-10 and a next page for
2026-01-05, the second page adds a new date, yet the loop stops after it
because the maximum date seen did not strictly increase. -/
theorem c8_counterexample :
    (fetch_all_days [⟨⟨2026, 1, 10⟩, some availableS, some 1⟩]
        (fun _ => [⟨⟨2026, 1, 5⟩, some availableS, some 1⟩])).reason = .noProgress
    ∧ (fetch_all_days [⟨⟨2026, 1, 10⟩, some availableS, some 1⟩]
        (fun _ => [⟨⟨2026, 1, 5⟩, some availableS, some 1⟩])).pagesFetched = 1
    ∧ (1 : Nat) < 79
    ∧ List.any ([⟨⟨2026, 1, 5⟩, some availableS, some 1⟩] : List Row)
        (fun r => !(containsKey (mergePage []
          [⟨⟨2026, 1, 10⟩, some availableS, some 1⟩]) r.date)) = true
    ∧ maxKeyD (mergePage (mergePage [] [⟨⟨2026, 1, 10⟩, some availableS, some 1⟩])
        [⟨⟨2026, 1, 5⟩, some availableS, some 1⟩]) = some ⟨2026, 1, 10⟩
    ∧ END_DATE.ble ⟨2026, 1, 10⟩ = false := by
  decide

/-- C8 amended: per page, in check order, pagination stops exactly when
the first of these holds — the page parsed to no rows, the maximum date
seen after merging reached `END_DATE`, the maximum date seen failed to
strictly increase, or the page added no new date; when none holds the
loop continues, until the 79-page safety limit exhausts.  (The claim's
list lacks the strict-increase condition, which can fire on a page that
did yield new dates.) -/
theorem c8_pagination_stop_amended (pages : Nat → List Row) (dict : AByD)
    (maxSeen : Option PDate) (p fuel : Nat) :
    fetch_pages_loop pages dict maxSeen p 0 = ⟨dict, p - 1, .pageLimit⟩
    ∧ (∀ rsn, stopCheck dict maxSeen (pages p) = some rsn →
        (fetch_pages_loop pages dict maxSeen p (fuel + 1)).reason = rsn
        ∧ (fetch_pages_loop pages dict maxSeen p (fuel + 1)).pagesFetched = p)
    ∧ (stopCheck dict maxSeen (pages p) = none →
        fetch_pages_loop pages dict maxSeen p (fuel + 1) =
          fetch_pages_loop pages (mergePage dict (pages p))
            (maxKeyD (mergePage dict (pages p))) (p + 1) fuel) :=
  ⟨rfl, (fetch_loop_step pages dict maxSeen p fuel).1,
    (fetch_loop_step pages dict maxSeen p fuel).2⟩

/-- C8 witness: the stop test fires on an empty page. -/
theorem c8_pagination_stop_amended_witness :
    (fetch_pages_loop (fun _ => ([] : List Row)) [] none 1 1).reason = .emptyPage
    ∧ (fetch_pages_loop (fun _ => ([] : List Row)) [] none 1 1).pagesFetched = 1 :=
  (c8_pagination_stop_amended (fun _ => []) [] none 1 0).2.1 .emptyPage rfl
